import Mathlib

/-!
Verification development for the KubeSphere pipeline controller
(`pkg/controller/pipeline/pipeline_controller.go`).

The Go controller reconciles `Pipeline` custom resources against a remote
Jenkins-style service.  This file gives a shallow embedding of the
`syncHandler` state machine, the `computeHash`/`deepHashObject` content hash
and the namespace eligibility gate, and proves (or refutes) the frozen
specification claims about them.
-/

set_option maxHeartbeats 1000000

namespace PipelineController

/-!
## Spec values

The pipeline `Spec` is an opaque structured configuration.  The controller
only ever treats it via `reflect.DeepEqual` and via the spew-based
`deepHashObject` (which prints the value with `SortKeys: true`, so map entries
are printed in key order).  `SpewValue` is the universe of such structured
values: primitives, ordered lists, and string-keyed maps whose entry order is
an artefact of the in-memory representation (Go map iteration order).
-/

inductive SpewValue where
  | str : String → SpewValue
  | num : Nat → SpewValue
  | boolV : Bool → SpewValue
  | list : List SpewValue → SpewValue
  | map : List (String × SpewValue) → SpewValue

mutual

/-- Structural boolean equality on spew values. -/
def beqValue : SpewValue → SpewValue → Bool
  | .str a, .str b => a == b
  | .num a, .num b => a == b
  | .boolV a, .boolV b => a == b
  | .list a, .list b => beqList a b
  | .map a, .map b => beqEntries a b
  | _, _ => false

def beqList : List SpewValue → List SpewValue → Bool
  | [], [] => true
  | a :: as, b :: bs => beqValue a b && beqList as bs
  | _, _ => false

def beqEntries :
    List (String × SpewValue) → List (String × SpewValue) → Bool
  | [], [] => true
  | e :: es, f :: fs => (e.1 == f.1 && beqValue e.2 f.2) && beqEntries es fs
  | _, _ => false

end

instance : BEq SpewValue := ⟨beqValue⟩

/-- Lexicographic comparison of character lists by code point, the order in
which Go's `sort.Strings` puts map keys (byte order of the UTF-8 encoding,
which agrees with code-point order). -/
def charListLe : List Char → List Char → Bool
  | [], _ => true
  | _ :: _, [] => false
  | a :: as, b :: bs =>
    if a.toNat < b.toNat then true
    else if b.toNat < a.toNat then false
    else charListLe as bs

/-- String comparison used to sort map keys. -/
def strLe (a b : String) : Bool :=
  charListLe a.data b.data

/-- Insert an entry into a key-sorted entry list, keeping it sorted by key.
This realises the `SortKeys: true` behaviour of the spew printer. -/
def insEntry (e : String × SpewValue) :
    List (String × SpewValue) → List (String × SpewValue)
  | [] => [e]
  | f :: rest => if strLe e.1 f.1 then e :: f :: rest else f :: insEntry e rest

/-- Sort a map's entry list by key (insertion sort), as the spew printer with
`SortKeys: true` does before printing map entries. -/
def sortEntries : List (String × SpewValue) → List (String × SpewValue)
  | [] => []
  | e :: rest => insEntry e (sortEntries rest)

mutual

/-- Canonical form of a spew value: every map's entries are recursively
sorted by key.  Printing with `SortKeys: true` is printing the canonical
form, and `reflect.DeepEqual` on duplicate-key-free maps is equality of
canonical forms. -/
def canon : SpewValue → SpewValue
  | .str s => .str s
  | .num n => .num n
  | .boolV b => .boolV b
  | .list l => .list (canonList l)
  | .map m => .map (sortEntries (canonEntries m))

def canonList : List SpewValue → List SpewValue
  | [] => []
  | v :: vs => canon v :: canonList vs

def canonEntries : List (String × SpewValue) → List (String × SpewValue)
  | [] => []
  | e :: es => (e.1, canon e.2) :: canonEntries es

end

mutual

/-- Plain rendering of a spew value to a string (the `%#v` print of the
value, shallowly modelled; map entries are rendered in list order, so this is
applied to the canonical form). -/
def renderValue : SpewValue → String
  | .str s => "\"" ++ s ++ "\""
  | .num n => toString n
  | .boolV b => toString b
  | .list l => "[" ++ renderList l ++ "]"
  | .map m => "map[" ++ renderEntries m ++ "]"

def renderList : List SpewValue → String
  | [] => ""
  | [v] => renderValue v
  | v :: vs => renderValue v ++ " " ++ renderList vs

def renderEntries : List (String × SpewValue) → String
  | [] => ""
  | [e] => e.1 ++ ":" ++ renderValue e.2
  | e :: es => e.1 ++ ":" ++ renderValue e.2 ++ " " ++ renderEntries es

end

/-- The spew print of a value under `ConfigState{SortKeys: true, ...}`:
map entries are sorted by key at every level before printing. -/
def spewPrint (v : SpewValue) : String :=
  renderValue (canon v)

/-- One step of the 32-bit FNV-1a hash (`hash/fnv.New32a`): xor the byte in,
then multiply by the FNV prime, modulo 2^32. -/
def fnv32aByte (h : Nat) (b : Nat) : Nat :=
  ((h ^^^ b) * 16777619) % 4294967296

/-- UTF-8 encoding of one character, as byte values. -/
def utf8EncodeCharNat (c : Char) : List Nat :=
  let v := c.toNat
  if v < 128 then [v]
  else if v < 2048 then [192 + v / 64, 128 + v % 64]
  else if v < 65536 then [224 + v / 4096, 128 + (v / 64) % 64, 128 + v % 64]
  else [240 + v / 262144, 128 + (v / 4096) % 64, 128 + (v / 64) % 64,
    128 + v % 64]

/-- The UTF-8 bytes of a string (what a Go `io.Writer` receives when the
string is written to it). -/
def utf8Bytes (s : String) : List Nat :=
  s.data.foldl (fun acc c => acc ++ utf8EncodeCharNat c) []

/-- 32-bit FNV-1a hash of the UTF-8 bytes of a string, as `hash/fnv.New32a`
computes it (offset basis 2166136261). -/
def fnv32a (s : String) : Nat :=
  (utf8Bytes s).foldl fnv32aByte 2166136261

/-- `deepHashObject` from the controller: reset the hasher, then write the
spew print (with sorted map keys) of the object; the resulting hasher state is
`Sum32()`. -/
def deepHashObject (obj : SpewValue) : Nat :=
  fnv32a (spewPrint obj)

/-- Modelled from the spec: `rand.SafeEncodeString`'s legal alphabet
("reduced to a short printable token"); the helper lives in
`k8s.io/apimachinery/pkg/util/rand`, outside this snapshot. -/
def alphanums : String := "bcdfghjklmnpqrstvwxz2456789"

/-- Modelled from the spec: `rand.SafeEncodeString` maps every character of
its input to a character of the legal alphabet by code point modulo the
alphabet length. -/
def safeEncodeString (s : String) : String :=
  String.mk (s.data.map (fun c => alphanums.data.getD (c.toNat % 27) 'b'))

/-- `computeHash` from the controller: FNV-1a over the spew print of the
object, `Sum32` printed in decimal, then safe-encoded. -/
def computeHash (obj : SpewValue) : String :=
  safeEncodeString (toString (deepHashObject obj))

/-- `reflect.DeepEqual` on spec values.  Go compares maps by key set and
per-key deep equality; on duplicate-key-free maps this is exactly equality of
canonical (key-sorted) forms. -/
def specEq (a b : SpewValue) : Bool :=
  canon a == canon b

/-!
## Annotation maps

Go annotation maps (`map[string]string`, possibly `nil`) are modelled as
`Option` of a duplicate-key-free association list.  `reflect.DeepEqual`
distinguishes a `nil` map from an empty one and otherwise compares maps
extensionally.
-/

/-- Lookup in an association list (first match), the read `m[k]`. -/
def lookupA (m : List (String × String)) (k : String) : Option String :=
  match m with
  | [] => none
  | e :: rest => if e.1 == k then some e.2 else lookupA rest k

/-- Map assignment `m[k] = v`: replace the existing entry for `k`, or append
a new one. -/
def setA (m : List (String × String)) (k v : String) :
    List (String × String) :=
  match m with
  | [] => [(k, v)]
  | e :: rest => if e.1 == k then (k, v) :: rest else e :: setA rest k v

/-- Extensional equality of two annotation maps: every entry of each is found
in the other.  On duplicate-key-free lists this is `reflect.DeepEqual` of the
corresponding Go maps. -/
def mapEqB (m1 m2 : List (String × String)) : Bool :=
  m1.all (fun e => lookupA m2 e.1 == some e.2) &&
    m2.all (fun e => lookupA m1 e.1 == some e.2)

/-- `reflect.DeepEqual` on possibly-nil annotation maps: `nil` equals only
`nil`, and non-nil maps are compared extensionally. -/
def annotationsDeepEq :
    Option (List (String × String)) → Option (List (String × String)) → Bool
  | none, none => true
  | some m1, some m2 => mapEqB m1 m2
  | _, _ => false

/-- Modelled from the spec: `sliceutil.HasString` — membership test of a
string in a string slice (the helper's source file is not in the snapshot;
the spec reads it as "the finalizer tag is present in the finalizer list"). -/
def hasString (slice : List String) (s : String) : Bool :=
  match slice with
  | [] => false
  | item :: rest => if item == s then true else hasString rest s

/-- Modelled from the spec: `sliceutil.RemoveString` — remove every element
matching the predicate from a string slice ("remove the finalizer tag"). -/
def removeString (slice : List String) (remove : String → Bool) :
    List String :=
  slice.filter (fun item => !remove item)

/-!
## Resources and collaborators

The `Pipeline` custom resource carries the fields the handler touches: name,
spec, deletion marker, finalizer list and annotation map.  The namespace
carries its label map and (abstractly) the result of the ownership check.
-/

structure Pipeline where
  name : String
  spec : SpewValue
  /-- `ObjectMeta.DeletionTimestamp.IsZero()`: `true` means live (no deletion
  marker). -/
  deletionTimestampIsZero : Bool
  finalizers : List String
  annotations : Option (List (String × String))

structure K8sNamespace where
  name : String
  labels : List (String × String)
  /-- Modelled from the spec: the result of
  `k8sutil.IsControlledBy(namespace.OwnerReferences, ResourceKindDevOpsProject, "")`
  — whether the namespace is owned by a resource of the designated
  DevOps-project kind.  The helper's source file is not in the snapshot, so
  it is abstracted to the boolean the eligibility gate consumes. -/
  controlledByDevOpsProject : Bool

/-- Modelled from the spec: `constants.DevOpsProjectLabelKey`, the ownership
label the eligibility gate requires (constant defined outside the snapshot;
only its identity matters). -/
def devOpsProjectLabelKey : String := "kubesphere.io/devopsproject"

/-- Modelled from the spec: `devopsv1alpha3.PipelineSyncStatusAnnoKey`, the
controller-owned `sync-status` annotation key (constant defined outside the
snapshot; only its identity, distinct from the spec-hash key, matters). -/
def pipelineSyncStatusAnnoKey : String :=
  "pipeline.devops.kubesphere.io/syncstatus"

/-- Modelled from the spec: `devopsv1alpha3.PipelineSpecHash`, the
controller-owned `spec-hash` annotation key (constant defined outside the
snapshot). -/
def pipelineSpecHash : String := "pipeline.devops.kubesphere.io/spechash"

/-- Modelled from the spec: `modelsdevops.StatusSuccessful`, the value the
`sync-status` annotation is set to on a successful sync. -/
def statusSuccessful : String := "successful"

/-- Modelled from the spec: `devopsv1alpha3.PipelineFinalizerName`, the
controller's finalizer tag. -/
def pipelineFinalizerName : String := "pipeline.finalizers.kubesphere.io"

/-- `http.StatusNotFound`. -/
def statusNotFound : Nat := 404

/-- `isDevOpsProjectAdminNamespace`: the namespace carries the DevOps project
label and is controlled by a DevOps project. -/
def isDevOpsProjectAdminNamespace (ns : K8sNamespace) : Bool :=
  (lookupA ns.labels devOpsProjectLabelKey).isSome &&
    ns.controlledByDevOpsProject

/-- Read an annotation of a pipeline (`nil` map reads as absent). -/
def annoLookup (p : Pipeline) (k : String) : Option String :=
  match p.annotations with
  | none => none
  | some m => lookupA m k

/-- Write an annotation of a pipeline (a `nil` map first becomes empty; the
handler only assigns after the `Annotations == nil` guard has run). -/
def annoSet (p : Pipeline) (k v : String) : Pipeline :=
  { p with annotations := some (setA (p.annotations.getD []) k v) }

/-- `reflect.DeepEqual(pipeline, copyPipeline)` on the fields of the model:
slices compare positionally, annotation maps extensionally with `nil`
distinguished from empty, specs by deep content equality. -/
def pipelineDeepEq (p q : Pipeline) : Bool :=
  p.name == q.name && specEq p.spec q.spec &&
    (p.deletionTimestampIsZero == q.deletionTimestampIsZero) &&
    p.finalizers == q.finalizers &&
    annotationsDeepEq p.annotations q.annotations

/-- Outcome of a cached read (`errors.IsNotFound(err)` distinguishes the
not-found error from other failures). -/
inductive GetRes (α : Type) where
  | ok : α → GetRes α
  | notFound : GetRes α
  | otherErr : GetRes α

/-- Errors of the External Service Client, as the deletion branch classifies
them: a `restful.ServiceError` with a code, a `*devopsClient.ErrorResponse`
with a status code, or any other error value. -/
inductive DevopsErr where
  | serviceError : Nat → DevopsErr
  | errorResponse : Nat → DevopsErr
  | otherErr : DevopsErr

/-- The distinct non-nil returns of `syncHandler`. -/
inductive SyncErr where
  | namespaceGetFailed
  | ineligibleNamespace
  | pipelineGetFailed
  | updateRemoteFailed
  | createRemoteFailed
  | deleteFinalizerFailed
  | storeUpdateFailed
deriving DecidableEq

/-- A call to the External Service Client (`devopsClient`). -/
inductive DevopsCall where
  | getConfig : String → String → DevopsCall
  | createConfig : String → Pipeline → DevopsCall
  | updateConfig : String → Pipeline → DevopsCall
  | deleteConfig : String → String → DevopsCall

/-- Responses of all collaborators, as functions of the request: the
namespace and pipeline listers, the four External Service Client operations
and the State Store Writer (`kubesphereClient...Update`). -/
structure Env where
  namespaces : String → GetRes K8sNamespace
  pipelines : String → String → GetRes Pipeline
  getProjectPipelineConfig : String → String → Except DevopsErr Pipeline
  createProjectPipeline : String → Pipeline → Except DevopsErr Pipeline
  updateProjectPipeline : String → Pipeline → Except DevopsErr Pipeline
  deleteProjectPipeline : String → String → Except DevopsErr Unit
  updatePipeline : String → Pipeline → Except Unit Pipeline

/-- What one `syncHandler` invocation returned and did: `result = none` is
the nil (success) return; `devopsCalls` is the sequence of External Service
Client calls; `storeWrite` is the argument of the State Store Writer call,
when one was made. -/
structure SyncResult where
  result : Option SyncErr
  devopsCalls : List DevopsCall
  storeWrite : Option Pipeline

/-- `strings.Split(key, "/")` on the character list of the key. -/
def splitSlash : List Char → List String
  | [] => [""]
  | c :: rest =>
    let parts := splitSlash rest
    if c == '/' then "" :: parts
    else
      match parts with
      | [] => [String.mk [c]]
      | p :: ps => String.mk (c :: p.data) :: ps

/-- `cache.SplitMetaNamespaceKey`: split on `/`; one part means name only,
two parts mean namespace and name, more is an error. -/
def splitMetaNamespaceKey (key : String) : Except Unit (String × String) :=
  match splitSlash key.data with
  | [nm] => .ok ("", nm)
  | [ns, nm] => .ok (ns, nm)
  | _ => .error ()

/-!
## The sync handler

`syncHandler` is split into the blocks of the Go function: the
`Annotations == nil` guard, the idempotency fast path, the finalizer-ensure,
the remote create/update sync, the finalizer-gated deletion, and the final
compare-and-write.  Each block is a definition so the claims can speak about
it; `syncHandler` composes them exactly in the source's order.
-/

/-- Lines 237–239: make sure `Annotations` is not nil. -/
def ensureAnnotations (p : Pipeline) : Pipeline :=
  match p.annotations with
  | none => { p with annotations := some [] }
  | some _ => p

/-- Lines 242–251, the idempotency fast path: if the sync-status annotation
is `successful`, compare the current spec hash with the stored one; on a
match return nil immediately (`none`), otherwise store the new hash in the
copy and continue (`some copy`).  Without a `successful` status the copy
passes through untouched. -/
def fastPathStep (p : Pipeline) : Option Pipeline :=
  match annoLookup p pipelineSyncStatusAnnoKey with
  | some state =>
    if state == statusSuccessful then
      let specHash := computeHash p.spec
      let oldHash := (annoLookup p pipelineSpecHash).getD ""
      if specHash == oldHash then none
      else some (annoSet p pipelineSpecHash specHash)
    else some p
  | none => some p

/-- Lines 254–256: add the controller's finalizer tag if missing. -/
def ensureFinalizer (p : Pipeline) : Pipeline :=
  if hasString p.finalizers pipelineFinalizerName then p
  else { p with finalizers := p.finalizers ++ [pipelineFinalizerName] }

/-- Outcome of the live or deletion branch: an early nil return, an early
error return, or fall-through to the compare-and-write step with the mutated
copy. -/
inductive BranchOut where
  | earlyNil : BranchOut
  | earlyErr : SyncErr → BranchOut
  | proceed : Pipeline → BranchOut

/-- Lines 258–280, the remote sync of a live resource: read the remote
config; on success update it when its spec differs (`reflect.DeepEqual`) and
do nothing when equal; on any read error create it.  A failed create or
update returns that error; otherwise the copy's sync-status annotation is set
to `successful`. -/
def remoteSync (env : Env) (nsName pipelineName : String) (copy : Pipeline) :
    BranchOut × List DevopsCall :=
  match env.getProjectPipelineConfig nsName pipelineName with
  | .ok jenkinsPipeline =>
    if !(specEq jenkinsPipeline.spec copy.spec) then
      match env.updateProjectPipeline nsName copy with
      | .ok _ =>
        (.proceed (annoSet copy pipelineSyncStatusAnnoKey statusSuccessful),
          [.getConfig nsName pipelineName, .updateConfig nsName copy])
      | .error _ =>
        (.earlyErr .updateRemoteFailed,
          [.getConfig nsName pipelineName, .updateConfig nsName copy])
    else
      (.proceed (annoSet copy pipelineSyncStatusAnnoKey statusSuccessful),
        [.getConfig nsName pipelineName])
  | .error _ =>
    match env.createProjectPipeline nsName copy with
    | .ok _ =>
      (.proceed (annoSet copy pipelineSyncStatusAnnoKey statusSuccessful),
        [.getConfig nsName pipelineName, .createConfig nsName copy])
    | .error _ =>
      (.earlyErr .createRemoteFailed,
        [.getConfig nsName pipelineName, .createConfig nsName copy])

/-- Lines 235–280, the live branch: nil-map guard, fast path, finalizer
ensure, remote sync. -/
def liveBranch (env : Env) (nsName : String) (pipeline : Pipeline) :
    BranchOut × List DevopsCall :=
  let copy0 := ensureAnnotations pipeline
  match fastPathStep copy0 with
  | none => (.earlyNil, [])
  | some copy1 => remoteSync env nsName pipeline.name (ensureFinalizer copy1)

/-- Lines 285–298: whether the remote delete counts as a success — a nil
error, or a `restful.ServiceError` / `*devopsClient.ErrorResponse` carrying
`http.StatusNotFound`; any other error (any other code, or an unexpected
error type) is a failure. -/
def deleteSucceeded : Except DevopsErr Unit → Bool
  | .ok _ => true
  | .error (.serviceError code) => code == statusNotFound
  | .error (.errorResponse code) => code == statusNotFound
  | .error .otherErr => false

/-- Lines 282–309, the deletion branch: with the finalizer tag absent the
copy falls through unchanged; with it present the remote delete is called,
and only a success (or not-found) removes the tag from the copy — any other
failure returns the retryable error without touching the copy. -/
def deletionBranch (env : Env) (nsName : String) (pipeline : Pipeline) :
    BranchOut × List DevopsCall :=
  if hasString pipeline.finalizers pipelineFinalizerName then
    let delRes := env.deleteProjectPipeline nsName pipeline.name
    if deleteSucceeded delRes then
      (.proceed { pipeline with
          finalizers := removeString pipeline.finalizers
            (fun item => item == pipelineFinalizerName) },
        [.deleteConfig nsName pipeline.name])
    else
      (.earlyErr .deleteFinalizerFailed, [.deleteConfig nsName pipeline.name])
  else (.proceed pipeline, [])

/-- Lines 312–319, the compare-and-write step: write the copy back iff it
differs (`reflect.DeepEqual`) from the original; a failed write is the
returned error.  The second component records the write call, when made. -/
def persistStep (env : Env) (nsName : String) (original copy : Pipeline) :
    Option SyncErr × Option Pipeline :=
  if !(pipelineDeepEq original copy) then
    match env.updatePipeline nsName copy with
    | .ok _ => (none, some copy)
    | .error _ => (some .storeUpdateFailed, some copy)
  else (none, none)

/-- Lines 202–320, `syncHandler`: split the key, resolve the namespace, gate
on eligibility, resolve the pipeline, run the live or deletion branch on a
deep copy, then compare-and-write. -/
def syncHandler (env : Env) (key : String) : SyncResult :=
  match splitMetaNamespaceKey key with
  | .error _ => { result := none, devopsCalls := [], storeWrite := none }
  | .ok (nsName, name) =>
    match env.namespaces nsName with
    | .notFound => { result := none, devopsCalls := [], storeWrite := none }
    | .otherErr =>
      { result := some .namespaceGetFailed, devopsCalls := [],
        storeWrite := none }
    | .ok ns =>
      if !(isDevOpsProjectAdminNamespace ns) then
        { result := some .ineligibleNamespace, devopsCalls := [],
          storeWrite := none }
      else
        match env.pipelines nsName name with
        | .notFound =>
          { result := none, devopsCalls := [], storeWrite := none }
        | .otherErr =>
          { result := some .pipelineGetFailed, devopsCalls := [],
            storeWrite := none }
        | .ok pipeline =>
          let branch :=
            if pipeline.deletionTimestampIsZero then
              liveBranch env nsName pipeline
            else
              deletionBranch env nsName pipeline
          match branch with
          | (.earlyNil, calls) =>
            { result := none, devopsCalls := calls, storeWrite := none }
          | (.earlyErr e, calls) =>
            { result := some e, devopsCalls := calls, storeWrite := none }
          | (.proceed copy, calls) =>
            let persisted := persistStep env nsName pipeline copy
            { result := persisted.1, devopsCalls := calls,
              storeWrite := persisted.2 }

/-!
## Concrete fixtures

Concrete namespaces, pipelines and collaborator behaviours used by the
witnesses and counterexamples.  `envBase` answers every request with a
not-found/ok default; each scenario overrides the fields it cares about.
-/

/-- An eligible namespace (label present, owned by a DevOps project). -/
def eligibleNs (nm : String) : K8sNamespace :=
  { name := nm, labels := [(devOpsProjectLabelKey, "d")],
    controlledByDevOpsProject := true }

/-- A baseline environment: every read is not-found, every write succeeds. -/
def envBase : Env :=
  { namespaces := fun _ => .notFound
    pipelines := fun _ _ => .notFound
    getProjectPipelineConfig := fun _ _ => .error (.serviceError 404)
    createProjectPipeline := fun _ p => .ok p
    updateProjectPipeline := fun _ p => .ok p
    deleteProjectPipeline := fun _ _ => .ok ()
    updatePipeline := fun _ p => .ok p }

def envW10 : Env := envBase

def nsW8 : K8sNamespace := eligibleNs "ns8"

def envW8 : Env :=
  { envBase with
    namespaces := fun n => if n == "ns8" then .ok nsW8 else .notFound }

/-- A namespace carrying the ownership label but not owned by a DevOps
project: ineligible. -/
def nsW6 : K8sNamespace :=
  { name := "ns6", labels := [(devOpsProjectLabelKey, "d")],
    controlledByDevOpsProject := false }

def envW6 : Env :=
  { envBase with namespaces := fun _ => .ok nsW6 }

def nsW5 : K8sNamespace := eligibleNs "ns5"

/-- A live resource already synced: status successful and stored hash equal
to the current spec hash. -/
def pW5 : Pipeline :=
  { name := "p5", spec := .map [("cmd", .str "build")],
    deletionTimestampIsZero := true, finalizers := [pipelineFinalizerName],
    annotations := some
      [(pipelineSyncStatusAnnoKey, statusSuccessful),
        (pipelineSpecHash, computeHash (.map [("cmd", .str "build")]))] }

def envW5 : Env :=
  { envBase with
    namespaces := fun _ => .ok nsW5
    pipelines := fun _ _ => .ok pW5 }

/-- A spec value whose map entries appear in one internal order... -/
def sW9a : SpewValue :=
  .map [("image", .str "golang"), ("steps", .list [.num 1, .num 2])]

/-- ...and the same content with the map entries in the other order. -/
def sW9b : SpewValue :=
  .map [("steps", .list [.num 1, .num 2]), ("image", .str "golang")]

def nsW1 : K8sNamespace := eligibleNs "ns1"

/-- A resource marked for deletion carrying the controller finalizer. -/
def pW1 : Pipeline :=
  { name := "p1", spec := .str "cfg", deletionTimestampIsZero := false,
    finalizers := ["other.finalizer", pipelineFinalizerName],
    annotations := some [] }

/-- Deletion scenario where the remote delete succeeds. -/
def envW1s : Env :=
  { envBase with
    namespaces := fun _ => .ok nsW1
    pipelines := fun _ _ => .ok pW1
    deleteProjectPipeline := fun _ _ => .ok () }

/-- Deletion scenario where the remote delete fails with a server error. -/
def envW1f : Env :=
  { envBase with
    namespaces := fun _ => .ok nsW1
    pipelines := fun _ _ => .ok pW1
    deleteProjectPipeline := fun _ _ => .error (.serviceError 500) }

def nsW2 : K8sNamespace := eligibleNs "ns2"

/-- A brand-new live resource: no annotations, no finalizers. -/
def pW2 : Pipeline :=
  { name := "p2", spec := .str "s2", deletionTimestampIsZero := true,
    finalizers := [], annotations := none }

/-- The copy of `pW2` as it is sent to the remote create: empty (non-nil)
annotation map and the finalizer added. -/
def cW2 : Pipeline :=
  { name := "p2", spec := .str "s2", deletionTimestampIsZero := true,
    finalizers := [pipelineFinalizerName], annotations := some [] }

def envW2 : Env :=
  { envBase with
    namespaces := fun _ => .ok nsW2
    pipelines := fun _ _ => .ok pW2 }

def nsW3 : K8sNamespace := eligibleNs "ns3"

def pW3 : Pipeline :=
  { name := "p3", spec := .str "s3", deletionTimestampIsZero := true,
    finalizers := [], annotations := none }

/-- The copy of `pW3` sent to the remote create. -/
def cW3 : Pipeline :=
  { name := "p3", spec := .str "s3", deletionTimestampIsZero := true,
    finalizers := [pipelineFinalizerName], annotations := some [] }

/-- Remote read fails with an error that is not a not-found. -/
def envW3 : Env :=
  { envBase with
    namespaces := fun _ => .ok nsW3
    pipelines := fun _ _ => .ok pW3
    getProjectPipelineConfig := fun _ _ => .error .otherErr }

/-- Remote read succeeds and the remote spec equals the local spec. -/
def envW3b : Env :=
  { envW3 with getProjectPipelineConfig := fun _ _ => .ok pW3 }

def nsW4 : K8sNamespace := eligibleNs "ns4"

def specW4 : SpewValue := .str "s4"

/-- A live resource satisfying the fast path but missing the finalizer. -/
def pW4 : Pipeline :=
  { name := "p4", spec := specW4, deletionTimestampIsZero := true,
    finalizers := [],
    annotations := some
      [(pipelineSyncStatusAnnoKey, statusSuccessful),
        (pipelineSpecHash, computeHash specW4)] }

def envW4 : Env :=
  { envBase with
    namespaces := fun _ => .ok nsW4
    pipelines := fun _ _ => .ok pW4 }

def nsW7 : K8sNamespace := eligibleNs "ns7"

def pW7 : Pipeline :=
  { name := "p7", spec := .str "s7", deletionTimestampIsZero := true,
    finalizers := [], annotations := none }

/-- The value the handler writes back for `pW7` (create path). -/
def cW7 : Pipeline :=
  { name := "p7", spec := .str "s7", deletionTimestampIsZero := true,
    finalizers := [pipelineFinalizerName],
    annotations := some [(pipelineSyncStatusAnnoKey, statusSuccessful)] }

def envW7 : Env :=
  { envBase with
    namespaces := fun _ => .ok nsW7
    pipelines := fun _ _ => .ok pW7 }

/-!
## Helper lemmas about maps, annotations and finalizers
-/

theorem lookupA_setA_self (m : List (String × String)) (k v : String) :
    lookupA (setA m k v) k = some v := by
  induction m with
  | nil => simp [setA, lookupA]
  | cons e rest ih =>
    by_cases h : e.1 == k
    · simp [setA, h, lookupA]
    · simp [setA, h, lookupA, ih]

theorem lookupA_mem {m : List (String × String)} {k v : String}
    (h : lookupA m k = some v) : (k, v) ∈ m := by
  induction m with
  | nil => simp [lookupA] at h
  | cons e rest ih =>
    rw [lookupA] at h
    by_cases he : e.1 == k
    · simp [he] at h
      have hk : e.1 = k := by simpa using he
      have : e = (k, v) := by
        cases e; simp_all
      simp [this]
    · simp [he] at h
      exact List.mem_cons_of_mem _ (ih h)

theorem mapEqB_lookup_eq {m1 m2 : List (String × String)}
    (h : mapEqB m1 m2 = true) (k : String) :
    lookupA m1 k = lookupA m2 k := by
  rw [mapEqB, Bool.and_eq_true, List.all_eq_true, List.all_eq_true] at h
  obtain ⟨h1, h2⟩ := h
  cases hv1 : lookupA m1 k with
  | some v =>
    have hmem : (k, v) ∈ m1 := lookupA_mem hv1
    have := h1 _ hmem
    simp at this
    exact hv1.trans this.symm |>.symm ▸ this.symm
  | none =>
    cases hv2 : lookupA m2 k with
    | none => rfl
    | some w =>
      have hmem : (k, w) ∈ m2 := lookupA_mem hv2
      have := h2 _ hmem
      simp at this
      rw [hv1] at this
      cases this

/-- Lookup through a possibly-nil annotation map. -/
def optLookup (a : Option (List (String × String))) (k : String) :
    Option String :=
  match a with
  | none => none
  | some m => lookupA m k

theorem annoLookup_eq_optLookup (p : Pipeline) (k : String) :
    annoLookup p k = optLookup p.annotations k := rfl

theorem annotationsDeepEq_lookup_eq {a b : Option (List (String × String))}
    (h : annotationsDeepEq a b = true) (k : String) :
    optLookup a k = optLookup b k := by
  cases a with
  | none => cases b with
    | none => rfl
    | some m2 => simp [annotationsDeepEq] at h
  | some m1 => cases b with
    | none => simp [annotationsDeepEq] at h
    | some m2 =>
      simp only [annotationsDeepEq] at h
      simp only [optLookup]
      exact mapEqB_lookup_eq h k

theorem pipelineDeepEq_annoLookup_eq {p q : Pipeline}
    (h : pipelineDeepEq p q = true) (k : String) :
    annoLookup p k = annoLookup q k := by
  rw [pipelineDeepEq] at h
  simp only [Bool.and_eq_true] at h
  rw [annoLookup_eq_optLookup, annoLookup_eq_optLookup]
  exact annotationsDeepEq_lookup_eq h.2 k

theorem annoLookup_annoSet_self (p : Pipeline) (k v : String) :
    annoLookup (annoSet p k v) k = some v := by
  simp [annoLookup, annoSet, lookupA_setA_self]

theorem annoLookup_ensureAnnotations (p : Pipeline) (k : String) :
    annoLookup (ensureAnnotations p) k = annoLookup p k := by
  cases hpa : p.annotations with
  | none => simp [ensureAnnotations, annoLookup, hpa, lookupA]
  | some m => simp [ensureAnnotations, annoLookup, hpa]

theorem fastPathStep_none_of_match (p : Pipeline)
    (hstatus : annoLookup p pipelineSyncStatusAnnoKey = some statusSuccessful)
    (hhash : annoLookup p pipelineSpecHash = some (computeHash p.spec)) :
    fastPathStep p = none := by
  unfold fastPathStep
  rw [hstatus, hhash]
  simp

theorem ensureAnnotations_eq_self {p : Pipeline} {m : List (String × String)}
    (h : p.annotations = some m) : ensureAnnotations p = p := by
  unfold ensureAnnotations
  rw [h]

theorem annoLookup_some_annotations {p : Pipeline} {k v : String}
    (h : annoLookup p k = some v) : ∃ m, p.annotations = some m := by
  cases hpa : p.annotations with
  | none => rw [annoLookup, hpa] at h; cases h
  | some m => exact ⟨m, rfl⟩

theorem hasString_ensureFinalizer (p : Pipeline) :
    hasString (ensureFinalizer p).finalizers pipelineFinalizerName = true := by
  unfold ensureFinalizer
  by_cases h : hasString p.finalizers pipelineFinalizerName
  · simp [h]
  · simp [h]
    induction p.finalizers with
    | nil => simp [hasString]
    | cons a rest ih =>
      rw [List.cons_append, hasString]
      by_cases ha : a == pipelineFinalizerName <;> simp [ha, ih]

theorem hasString_removeString_self (l : List String) (s : String) :
    hasString (removeString l (fun item => item == s)) s = false := by
  induction l with
  | nil => simp [removeString, hasString]
  | cons a rest ih =>
    by_cases ha : a == s
    · simpa [removeString, ha] using ih
    · simp only [removeString, List.filter] at ih ⊢
      simp [ha, hasString, ih]

theorem annoLookup_eq_of_annotations {p q : Pipeline}
    (h : p.annotations = q.annotations) (k : String) :
    annoLookup p k = annoLookup q k := by
  rw [annoLookup_eq_optLookup, annoLookup_eq_optLookup, h]

theorem lookupA_setA_ne (m : List (String × String)) {k k2 : String}
    (v : String) (h : k ≠ k2) :
    lookupA (setA m k v) k2 = lookupA m k2 := by
  induction m with
  | nil => simp [setA, lookupA, h]
  | cons e rest ih =>
    by_cases he : e.1 == k
    · have he1 : e.1 = k := by simpa using he
      simp [setA, he, lookupA, h, he1]
    · simp [setA, he, lookupA, ih]

theorem annoLookup_annoSet_ne (p : Pipeline) {k k2 : String} (v : String)
    (h : k ≠ k2) :
    annoLookup (annoSet p k v) k2 = annoLookup p k2 := by
  cases hpa : p.annotations with
  | none =>
    simp [annoSet, annoLookup, hpa, lookupA, lookupA_setA_ne, h]
  | some m =>
    simp only [annoSet, annoLookup, hpa, Option.getD]
    exact lookupA_setA_ne m v h

theorem annoSet_fields (p : Pipeline) (k v : String) :
    (annoSet p k v).spec = p.spec ∧ (annoSet p k v).name = p.name ∧
      (annoSet p k v).deletionTimestampIsZero = p.deletionTimestampIsZero ∧
      (annoSet p k v).finalizers = p.finalizers :=
  ⟨rfl, rfl, rfl, rfl⟩

theorem ensureAnnotations_fields (p : Pipeline) :
    (ensureAnnotations p).spec = p.spec ∧
      (ensureAnnotations p).name = p.name ∧
      (ensureAnnotations p).deletionTimestampIsZero =
        p.deletionTimestampIsZero ∧
      (ensureAnnotations p).finalizers = p.finalizers := by
  cases hpa : p.annotations <;> simp [ensureAnnotations, hpa]

theorem ensureFinalizer_fields (p : Pipeline) :
    (ensureFinalizer p).spec = p.spec ∧ (ensureFinalizer p).name = p.name ∧
      (ensureFinalizer p).deletionTimestampIsZero =
        p.deletionTimestampIsZero ∧
      (ensureFinalizer p).annotations = p.annotations := by
  by_cases h : hasString p.finalizers pipelineFinalizerName <;>
    simp [ensureFinalizer, h]

theorem fastPathStep_some_fields {p q : Pipeline}
    (h : fastPathStep p = some q) :
    q.spec = p.spec ∧ q.name = p.name ∧
      q.deletionTimestampIsZero = p.deletionTimestampIsZero ∧
      q.finalizers = p.finalizers := by
  unfold fastPathStep at h
  cases hl : annoLookup p pipelineSyncStatusAnnoKey with
  | none =>
    rw [hl] at h
    cases h
    exact ⟨rfl, rfl, rfl, rfl⟩
  | some state =>
    rw [hl] at h
    by_cases hs : state == statusSuccessful
    · simp only [hs, if_true] at h
      by_cases hh : computeHash p.spec ==
          (annoLookup p pipelineSpecHash).getD ""
      · simp [hh] at h
      · simp only [hh, Bool.false_eq_true, if_false, ite_false,
          Option.some.injEq] at h
        cases h
        exact ⟨rfl, rfl, rfl, rfl⟩
    · simp only [hs, Bool.false_eq_true, if_false, ite_false,
        Option.some.injEq] at h
      cases h
      exact ⟨rfl, rfl, rfl, rfl⟩

theorem fastPathStep_skip_of_not_successful {p : Pipeline}
    (h : annoLookup p pipelineSyncStatusAnnoKey ≠ some statusSuccessful) :
    fastPathStep p = some p := by
  unfold fastPathStep
  cases hl : annoLookup p pipelineSyncStatusAnnoKey with
  | none => rfl
  | some state =>
    have hne : state ≠ statusSuccessful := fun hq => h (hq ▸ hl)
    simp [hne]

theorem remoteSync_proceed_shape {env : Env} {nsName pname : String}
    {q c : Pipeline} {calls : List DevopsCall}
    (h : remoteSync env nsName pname q = (.proceed c, calls)) :
    c = annoSet q pipelineSyncStatusAnnoKey statusSuccessful := by
  unfold remoteSync at h
  cases hg : env.getProjectPipelineConfig nsName pname with
  | ok jp =>
    rw [hg] at h
    by_cases hs : specEq jp.spec q.spec
    · simp only [hs, Bool.not_true, Bool.false_eq_true, if_false,
        ite_false, Prod.mk.injEq, BranchOut.proceed.injEq] at h
      exact h.1.symm
    · cases hu : env.updateProjectPipeline nsName q with
      | ok r =>
        simp only [hs, Bool.not_false, if_true, ite_true, hu,
          Prod.mk.injEq, BranchOut.proceed.injEq] at h
        exact h.1.symm
      | error e =>
        simp [hs, hu] at h
  | error e =>
    rw [hg] at h
    cases hc : env.createProjectPipeline nsName q with
    | ok r =>
      simp only [hc, Prod.mk.injEq, BranchOut.proceed.injEq] at h
      exact h.1.symm
    | error f =>
      simp [hc] at h

theorem liveBranch_proceed_fields {env : Env} {nsName : String}
    {p c : Pipeline} {calls : List DevopsCall}
    (h : liveBranch env nsName p = (.proceed c, calls)) :
    c.spec = p.spec ∧ c.name = p.name ∧
      c.deletionTimestampIsZero = p.deletionTimestampIsZero ∧
      hasString c.finalizers pipelineFinalizerName = true := by
  unfold liveBranch at h
  dsimp only at h
  cases hfp : fastPathStep (ensureAnnotations p) with
  | none =>
    rw [hfp] at h
    simp at h
  | some q =>
    rw [hfp] at h
    dsimp only at h
    have hc := remoteSync_proceed_shape h
    have hq := fastPathStep_some_fields hfp
    have he := ensureAnnotations_fields p
    have hf := ensureFinalizer_fields q
    subst hc
    refine ⟨?_, ?_, ?_, ?_⟩
    · show (ensureFinalizer q).spec = p.spec
      rw [hf.1, hq.1, he.1]
    · show (ensureFinalizer q).name = p.name
      rw [hf.2.1, hq.2.1, he.2.1]
    · show (ensureFinalizer q).deletionTimestampIsZero =
        p.deletionTimestampIsZero
      rw [hf.2.2.1, hq.2.2.1, he.2.2.1]
    · exact hasString_ensureFinalizer q

theorem deletionBranch_proceed_fields {env : Env} {nsName : String}
    {p c : Pipeline} {calls : List DevopsCall}
    (h : deletionBranch env nsName p = (.proceed c, calls)) :
    c.spec = p.spec ∧ c.name = p.name ∧
      c.deletionTimestampIsZero = p.deletionTimestampIsZero ∧
      c.annotations = p.annotations := by
  unfold deletionBranch at h
  by_cases hfin : hasString p.finalizers pipelineFinalizerName
  · simp only [hfin, if_true, ite_true] at h
    by_cases hd : deleteSucceeded (env.deleteProjectPipeline nsName p.name)
    · simp only [hd, if_true, ite_true, Prod.mk.injEq,
        BranchOut.proceed.injEq] at h
      rw [← h.1]
      exact ⟨rfl, rfl, rfl, rfl⟩
    · simp [hd] at h
  · simp only [hfin, Bool.false_eq_true, if_false, ite_false,
      Prod.mk.injEq, BranchOut.proceed.injEq] at h
    rw [← h.1]
    exact ⟨rfl, rfl, rfl, rfl⟩

theorem syncHandler_resolved (env : Env) (key nsName nm : String)
    (n : K8sNamespace) (p : Pipeline)
    (hkey : splitMetaNamespaceKey key = .ok (nsName, nm))
    (hns : env.namespaces nsName = .ok n)
    (helig : isDevOpsProjectAdminNamespace n = true)
    (hp : env.pipelines nsName nm = .ok p) :
    syncHandler env key =
      match (if p.deletionTimestampIsZero then liveBranch env nsName p
             else deletionBranch env nsName p) with
      | (.earlyNil, calls) =>
        { result := none, devopsCalls := calls, storeWrite := none }
      | (.earlyErr e, calls) =>
        { result := some e, devopsCalls := calls, storeWrite := none }
      | (.proceed copy, calls) =>
        { result := (persistStep env nsName p copy).1, devopsCalls := calls,
          storeWrite := (persistStep env nsName p copy).2 } := by
  unfold syncHandler
  rw [hkey]
  dsimp only
  rw [hns]
  dsimp only
  simp only [helig, Bool.not_true, Bool.false_eq_true, if_false, ite_false]
  rw [hp]

/-!
## Order lemmas for the key comparison and the entry sort
-/

theorem char_eq_of_toNat_eq {a b : Char} (h : a.toNat = b.toNat) : a = b :=
  Char.ext (UInt32.ext h)

theorem charListLe_total (as bs : List Char) :
    charListLe as bs = true ∨ charListLe bs as = true := by
  induction as generalizing bs with
  | nil => left; rfl
  | cons a as ih =>
    cases bs with
    | nil => right; rfl
    | cons b bs =>
      by_cases h1 : a.toNat < b.toNat
      · left; simp [charListLe, h1]
      · by_cases h2 : b.toNat < a.toNat
        · right; simp [charListLe, h2]
        · cases ih bs with
          | inl h => left; simp [charListLe, h1, h2, h]
          | inr h => right; simp [charListLe, h1, h2, h]

theorem charListLe_antisymm :
    ∀ {as bs : List Char}, charListLe as bs = true →
      charListLe bs as = true → as = bs := by
  intro as
  induction as with
  | nil =>
    intro bs h1 h2
    cases bs with
    | nil => rfl
    | cons b bs => simp [charListLe] at h2
  | cons a as ih =>
    intro bs h1 h2
    cases bs with
    | nil => simp [charListLe] at h1
    | cons b bs =>
      by_cases hab : a.toNat < b.toNat
      · simp [charListLe, hab, Nat.lt_asymm hab] at h2
      · by_cases hba : b.toNat < a.toNat
        · simp [charListLe, hab, hba] at h1
        · have hc : a = b := char_eq_of_toNat_eq (by omega)
          simp only [charListLe, hab, hba, if_false] at h1 h2
          rw [hc, ih h1 h2]

theorem charListLe_trans :
    ∀ {as bs cs : List Char}, charListLe as bs = true →
      charListLe bs cs = true → charListLe as cs = true := by
  intro as
  induction as with
  | nil => intro bs cs _ _; rfl
  | cons a as ih =>
    intro bs cs h1 h2
    cases bs with
    | nil => simp [charListLe] at h1
    | cons b bs =>
      cases cs with
      | nil => simp [charListLe] at h2
      | cons c cs =>
        simp only [charListLe] at h1 h2 ⊢
        by_cases hab : a.toNat < b.toNat
        · by_cases hbc : b.toNat < c.toNat
          · have hac : a.toNat < c.toNat := by omega
            simp [hac]
          · by_cases hcb : c.toNat < b.toNat
            · rw [if_neg hbc, if_pos hcb] at h2; cases h2
            · have hac : a.toNat < c.toNat := by omega
              simp [hac]
        · by_cases hba : b.toNat < a.toNat
          · rw [if_neg hab, if_pos hba] at h1; cases h1
          · by_cases hbc : b.toNat < c.toNat
            · have hac : a.toNat < c.toNat := by omega
              simp [hac]
            · by_cases hcb : c.toNat < b.toNat
              · rw [if_neg hbc, if_pos hcb] at h2; cases h2
              · have h3 : ¬ a.toNat < c.toNat := by omega
                have h4 : ¬ c.toNat < a.toNat := by omega
                rw [if_neg hab, if_neg hba] at h1
                rw [if_neg hbc, if_neg hcb] at h2
                rw [if_neg h3, if_neg h4]
                exact ih h1 h2

theorem strLe_total (a b : String) :
    strLe a b = true ∨ strLe b a = true :=
  charListLe_total a.data b.data

theorem strLe_antisymm {a b : String} (h1 : strLe a b = true)
    (h2 : strLe b a = true) : a = b := by
  have := charListLe_antisymm h1 h2
  cases a; cases b; simp_all

theorem strLe_trans {a b c : String} (h1 : strLe a b = true)
    (h2 : strLe b c = true) : strLe a c = true :=
  charListLe_trans h1 h2

theorem insEntry_comm_aux (a b : String × SpewValue)
    (hab : strLe a.1 b.1 = true) (hba : strLe b.1 a.1 = false)
    (l : List (String × SpewValue)) :
    insEntry a (insEntry b l) = insEntry b (insEntry a l) := by
  induction l with
  | nil => simp [insEntry, hab, hba]
  | cons c l ih =>
    by_cases hbc : strLe b.1 c.1
    · have hac : strLe a.1 c.1 = true := strLe_trans hab hbc
      simp [insEntry, hab, hba, hbc, hac]
    · by_cases hac : strLe a.1 c.1
      · simp [insEntry, hab, hba, hbc, hac]
      · simp [insEntry, hab, hba, hbc, hac, ih]

theorem insEntry_comm (a b : String × SpewValue) (hne : a.1 ≠ b.1)
    (l : List (String × SpewValue)) :
    insEntry a (insEntry b l) = insEntry b (insEntry a l) := by
  have hnotboth : ¬ (strLe a.1 b.1 = true ∧ strLe b.1 a.1 = true) := by
    rintro ⟨h1, h2⟩
    exact hne (strLe_antisymm h1 h2)
  cases charListLe_total a.1.data b.1.data with
  | inl h =>
    have hba : strLe b.1 a.1 = false := by
      cases hx : strLe b.1 a.1 with
      | false => rfl
      | true => exact absurd ⟨h, hx⟩ hnotboth
    exact insEntry_comm_aux a b h hba l
  | inr h =>
    have hab : strLe a.1 b.1 = false := by
      cases hx : strLe a.1 b.1 with
      | false => rfl
      | true => exact absurd ⟨hx, h⟩ hnotboth
    exact (insEntry_comm_aux b a h hab l).symm

theorem sortEntries_eq_of_perm {l1 l2 : List (String × SpewValue)}
    (hp : l1.Perm l2) (hnd : (l1.map Prod.fst).Nodup) :
    sortEntries l1 = sortEntries l2 := by
  induction hp with
  | nil => rfl
  | @cons a l1 l2 p ih =>
    rw [sortEntries, sortEntries,
      ih (by simpa [List.nodup_cons] using hnd.of_cons)]
  | @swap x y l =>
    have hxy : y.1 ≠ x.1 := by
      simp only [List.map_cons, List.nodup_cons, List.mem_cons] at hnd
      exact fun h => hnd.1 (Or.inl h)
    rw [sortEntries, sortEntries, sortEntries, sortEntries]
    exact insEntry_comm y x hxy (sortEntries l)
  | @trans l1 mid l2 p1 p2 ih1 ih2 =>
    have hmid : (mid.map Prod.fst).Nodup :=
      ((p1.map Prod.fst).nodup_iff).mp hnd
    rw [ih1 hnd, ih2 hmid]

/-!
## Content equality

`ContentEq a b` says the two spew values carry identical content up to the
internal ordering of map entries (at any nesting depth): primitives must
match exactly, lists must match pointwise, and map entry lists must agree up
to a permutation pairing equal keys with content-equal values.
`wfValue` states the Go-map well-formedness: every map has duplicate-free
keys.
-/

mutual

inductive ContentEq : SpewValue → SpewValue → Prop where
  | str : ∀ s, ContentEq (.str s) (.str s)
  | num : ∀ n, ContentEq (.num n) (.num n)
  | boolV : ∀ b, ContentEq (.boolV b) (.boolV b)
  | list : ∀ l1 l2, ContentEqList l1 l2 → ContentEq (.list l1) (.list l2)
  | map : ∀ m1 m2 m3, m1.Perm m3 → ContentEqEntries m3 m2 →
      ContentEq (.map m1) (.map m2)

inductive ContentEqList : List SpewValue → List SpewValue → Prop where
  | nil : ContentEqList [] []
  | cons : ∀ v1 v2 l1 l2, ContentEq v1 v2 → ContentEqList l1 l2 →
      ContentEqList (v1 :: l1) (v2 :: l2)

inductive ContentEqEntries :
    List (String × SpewValue) → List (String × SpewValue) → Prop where
  | nil : ContentEqEntries [] []
  | cons : ∀ k v1 v2 es1 es2, ContentEq v1 v2 → ContentEqEntries es1 es2 →
      ContentEqEntries ((k, v1) :: es1) ((k, v2) :: es2)

end

mutual

/-- Well-formedness of a spew value as the image of a Go value: every map
(at any depth) has duplicate-free keys. -/
def wfValue : SpewValue → Prop
  | .str _ => True
  | .num _ => True
  | .boolV _ => True
  | .list l => wfList l
  | .map m => (m.map Prod.fst).Nodup ∧ wfEntries m

def wfList : List SpewValue → Prop
  | [] => True
  | v :: vs => wfValue v ∧ wfList vs

def wfEntries : List (String × SpewValue) → Prop
  | [] => True
  | e :: es => wfValue e.2 ∧ wfEntries es

end

theorem canonEntries_eq_map (l : List (String × SpewValue)) :
    canonEntries l = l.map (fun e => (e.1, canon e.2)) := by
  induction l with
  | nil => rfl
  | cons _ es ih => rw [canonEntries, ih, List.map_cons]

theorem canonEntries_keys (l : List (String × SpewValue)) :
    (canonEntries l).map Prod.fst = l.map Prod.fst := by
  rw [canonEntries_eq_map, List.map_map]
  rfl

theorem wfEntries_mem {l : List (String × SpewValue)} (hw : wfEntries l)
    {e : String × SpewValue} (he : e ∈ l) : wfValue e.2 := by
  induction l with
  | nil => cases he
  | cons f fs ih =>
    rw [wfEntries] at hw
    rcases List.mem_cons.mp he with h | h
    · rw [h]; exact hw.1
    · exact ih hw.2 h

theorem wfEntries_of_forall {l : List (String × SpewValue)}
    (h : ∀ e ∈ l, wfValue e.2) : wfEntries l := by
  induction l with
  | nil => trivial
  | cons f fs ih =>
    rw [wfEntries]
    exact ⟨h f (List.mem_cons_self f fs), ih fun e he =>
      h e (List.mem_cons_of_mem f he)⟩

theorem wfEntries_of_perm {l1 l2 : List (String × SpewValue)}
    (hp : l1.Perm l2) (hw : wfEntries l1) : wfEntries l2 :=
  wfEntries_of_forall fun e he => wfEntries_mem hw (hp.mem_iff.mpr he)

mutual

theorem canon_eq_of_contentEq :
    ∀ {a b : SpewValue}, ContentEq a b → wfValue a → canon a = canon b
  | _, _, .str s, _ => rfl
  | _, _, .num n, _ => rfl
  | _, _, .boolV b, _ => rfl
  | _, _, .list l1 l2 h, hw => by
    rw [canon, canon, canonList_eq_of_contentEqList h hw]
  | _, _, .map m1 m2 m3 hperm hent, hw => by
    rw [canon, canon]
    have hpc : (canonEntries m1).Perm (canonEntries m3) := by
      rw [canonEntries_eq_map, canonEntries_eq_map]
      exact hperm.map _
    have hnd : ((canonEntries m1).map Prod.fst).Nodup := by
      rw [canonEntries_keys]
      exact hw.1
    have hw3 : wfEntries m3 := wfEntries_of_perm hperm hw.2
    rw [sortEntries_eq_of_perm hpc hnd,
      canonEntries_eq_of_contentEqEntries hent hw3]

theorem canonList_eq_of_contentEqList :
    ∀ {l1 l2 : List SpewValue}, ContentEqList l1 l2 → wfList l1 →
      canonList l1 = canonList l2
  | _, _, .nil, _ => rfl
  | _, _, .cons v1 v2 l1 l2 hv hl, hw => by
    rw [canonList, canonList, canon_eq_of_contentEq hv hw.1,
      canonList_eq_of_contentEqList hl hw.2]

theorem canonEntries_eq_of_contentEqEntries :
    ∀ {es1 es2 : List (String × SpewValue)}, ContentEqEntries es1 es2 →
      wfEntries es1 → canonEntries es1 = canonEntries es2
  | _, _, .nil, _ => rfl
  | _, _, .cons k v1 v2 es1 es2 hv hes, hw => by
    rw [canonEntries, canonEntries]
    have h1 : canon v1 = canon v2 := canon_eq_of_contentEq hv hw.1
    have h2 : canonEntries es1 = canonEntries es2 :=
      canonEntries_eq_of_contentEqEntries hes hw.2
    rw [h1, h2]

end

mutual

theorem contentEq_refl : ∀ (a : SpewValue), ContentEq a a
  | .str s => .str s
  | .num n => .num n
  | .boolV b => .boolV b
  | .list l => .list l l (contentEqList_refl l)
  | .map m => .map m m m (List.Perm.refl m) (contentEqEntries_refl m)

theorem contentEqList_refl : ∀ (l : List SpewValue), ContentEqList l l
  | [] => .nil
  | v :: vs => .cons v v vs vs (contentEq_refl v) (contentEqList_refl vs)

theorem contentEqEntries_refl :
    ∀ (l : List (String × SpewValue)), ContentEqEntries l l
  | [] => .nil
  | (k, v) :: es =>
    .cons k v v es es (contentEq_refl v) (contentEqEntries_refl es)

end

/-!
## Claim theorems
-/

/-- C9: the idempotency hash is deterministic and order-independent — two
spec values with identical content under any internal map-entry ordering
(and duplicate-free map keys, as Go maps guarantee) have equal
`computeHash`. -/
theorem computeHash_content_invariant (a b : SpewValue)
    (h : ContentEq a b) (hw : wfValue a) :
    computeHash a = computeHash b := by
  unfold computeHash deepHashObject spewPrint
  rw [canon_eq_of_contentEq h hw]

/-- Witness for C9: the same two-entry map in both internal orders hashes
identically. -/
theorem computeHash_content_invariant_witness :
    computeHash sW9a = computeHash sW9b :=
  computeHash_content_invariant sW9a sW9b
    (ContentEq.map _ _ _ (List.Perm.swap _ _ _) (contentEqEntries_refl _))
    (by constructor
        · simp [sW9a]
        · simp [sW9a, wfEntries, wfValue, wfList])

/-- C10: for every work item whose key string cannot be split into a
namespace/name pair, the sync handler returns success (nil), performing no
remote call and no store write, so the malformed key is dropped rather than
requeued. -/
theorem syncHandler_malformed_key_dropped (env : Env) (key : String)
    (hkey : splitMetaNamespaceKey key = .error ()) :
    syncHandler env key =
      { result := none, devopsCalls := [], storeWrite := none } := by
  unfold syncHandler
  rw [hkey]

/-- Witness for C10 at the concrete malformed key `"a/b/c"`. -/
theorem syncHandler_malformed_key_dropped_witness :
    splitMetaNamespaceKey "a/b/c" = .error () ∧
      syncHandler envW10 "a/b/c" =
        { result := none, devopsCalls := [], storeWrite := none } :=
  ⟨rfl, syncHandler_malformed_key_dropped envW10 "a/b/c" rfl⟩

/-- C8: a key whose namespace is not found, and a key whose namespace is
eligible but whose resource is not found, both make the sync handler return
success (nil) with no remote call and no store write. -/
theorem syncHandler_not_found_terminal_success (env : Env)
    (key nsName nm : String)
    (hkey : splitMetaNamespaceKey key = .ok (nsName, nm)) :
    (env.namespaces nsName = .notFound →
      syncHandler env key =
        { result := none, devopsCalls := [], storeWrite := none }) ∧
    (∀ n, env.namespaces nsName = .ok n →
      isDevOpsProjectAdminNamespace n = true →
      env.pipelines nsName nm = .notFound →
      syncHandler env key =
        { result := none, devopsCalls := [], storeWrite := none }) := by
  constructor
  · intro hns
    unfold syncHandler
    rw [hkey]
    dsimp only
    rw [hns]
  · intro n hns helig hp
    unfold syncHandler
    rw [hkey]
    dsimp only
    rw [hns]
    dsimp only
    simp only [helig, Bool.not_true, Bool.false_eq_true, if_false, ite_false]
    rw [hp]

/-- Witness for C8: a namespace-not-found key and an eligible namespace with
a missing resource, both dropped with no calls. -/
theorem syncHandler_not_found_terminal_success_witness :
    splitMetaNamespaceKey "nsgone/p8" = .ok ("nsgone", "p8") ∧
      syncHandler envW8 "nsgone/p8" =
        { result := none, devopsCalls := [], storeWrite := none } ∧
      syncHandler envW8 "ns8/p8" =
        { result := none, devopsCalls := [], storeWrite := none } :=
  ⟨rfl,
    (syncHandler_not_found_terminal_success envW8 "nsgone/p8" "nsgone" "p8"
      rfl).1 rfl,
    (syncHandler_not_found_terminal_success envW8 "ns8/p8" "ns8" "p8"
      rfl).2 nsW8 rfl rfl rfl⟩

/-- C6: a key whose namespace exists but fails the eligibility gate (missing
ownership label or designated owner kind) makes the handler return an error
with no External Service Client call and no store write. -/
theorem syncHandler_ineligible_namespace_no_calls (env : Env)
    (key nsName nm : String) (n : K8sNamespace)
    (hkey : splitMetaNamespaceKey key = .ok (nsName, nm))
    (hns : env.namespaces nsName = .ok n)
    (helig : isDevOpsProjectAdminNamespace n = false) :
    syncHandler env key =
      { result := some .ineligibleNamespace, devopsCalls := [],
        storeWrite := none } := by
  unfold syncHandler
  rw [hkey]
  dsimp only
  rw [hns]
  dsimp only
  simp [helig]

/-- Witness for C6: a namespace carrying the label but not owned by a
DevOps project is rejected with no calls. -/
theorem syncHandler_ineligible_namespace_no_calls_witness :
    isDevOpsProjectAdminNamespace nsW6 = false ∧
      syncHandler envW6 "ns6/p6" =
        { result := some .ineligibleNamespace, devopsCalls := [],
          storeWrite := none } :=
  ⟨rfl, syncHandler_ineligible_namespace_no_calls envW6 "ns6/p6" "ns6" "p6"
    nsW6 rfl rfl rfl⟩

theorem fastpath_nil_result (env : Env) (key nsName nm : String)
    (n : K8sNamespace) (p : Pipeline)
    (hkey : splitMetaNamespaceKey key = .ok (nsName, nm))
    (hns : env.namespaces nsName = .ok n)
    (helig : isDevOpsProjectAdminNamespace n = true)
    (hp : env.pipelines nsName nm = .ok p)
    (hlive : p.deletionTimestampIsZero = true)
    (hstatus : annoLookup p pipelineSyncStatusAnnoKey = some statusSuccessful)
    (hhash : annoLookup p pipelineSpecHash = some (computeHash p.spec)) :
    syncHandler env key =
      { result := none, devopsCalls := [], storeWrite := none } := by
  obtain ⟨m, hm⟩ := annoLookup_some_annotations hstatus
  unfold syncHandler
  rw [hkey]
  dsimp only
  rw [hns]
  dsimp only
  simp only [helig, Bool.not_true, Bool.false_eq_true, if_false, ite_false]
  rw [hp]
  dsimp only
  simp only [hlive, if_true]
  unfold liveBranch
  rw [ensureAnnotations_eq_self hm]
  dsimp only
  rw [fastPathStep_none_of_match p hstatus hhash]

/-- C5: a live resource with `sync-status = successful` and a stored
spec-hash equal to the hash of the current spec makes the handler return
success with zero External Service Client calls and no store write; the
stored resource is untouched, so a second invocation is the identical
computation and again performs zero remote calls. -/
theorem syncHandler_fastpath_idempotent (env : Env) (key nsName nm : String)
    (n : K8sNamespace) (p : Pipeline)
    (hkey : splitMetaNamespaceKey key = .ok (nsName, nm))
    (hns : env.namespaces nsName = .ok n)
    (helig : isDevOpsProjectAdminNamespace n = true)
    (hp : env.pipelines nsName nm = .ok p)
    (hlive : p.deletionTimestampIsZero = true)
    (hstatus : annoLookup p pipelineSyncStatusAnnoKey = some statusSuccessful)
    (hhash : annoLookup p pipelineSpecHash = some (computeHash p.spec)) :
    syncHandler env key =
      { result := none, devopsCalls := [], storeWrite := none } :=
  fastpath_nil_result env key nsName nm n p hkey hns helig hp hlive hstatus
    hhash

/-- Witness for C5 at a concrete synced resource. -/
theorem syncHandler_fastpath_idempotent_witness :
    annoLookup pW5 pipelineSpecHash = some (computeHash pW5.spec) ∧
      syncHandler envW5 "ns5/p5" =
        { result := none, devopsCalls := [], storeWrite := none } :=
  ⟨rfl, syncHandler_fastpath_idempotent envW5 "ns5/p5" "ns5" "p5" nsW5 pW5
    rfl rfl rfl rfl rfl rfl rfl⟩

/-- C1: for a resource with the deletion marker present and the controller's
finalizer tag in its finalizer list, the handler removes the finalizer tag
from the copy exactly when the remote delete returned success or a not-found
response; on any other delete failure the finalizer is retained, the handler
returns the retryable error, and the stored resource is unchanged (no store
write). -/
theorem pipeline_finalizer_removed_iff_delete_success (env : Env)
    (key nsName nm : String) (n : K8sNamespace) (p : Pipeline)
    (hkey : splitMetaNamespaceKey key = .ok (nsName, nm))
    (hns : env.namespaces nsName = .ok n)
    (helig : isDevOpsProjectAdminNamespace n = true)
    (hp : env.pipelines nsName nm = .ok p)
    (hdel : p.deletionTimestampIsZero = false)
    (hfin : hasString p.finalizers pipelineFinalizerName = true) :
    (deleteSucceeded (env.deleteProjectPipeline nsName p.name) = true →
      deletionBranch env nsName p =
        (.proceed { p with finalizers := (removeString p.finalizers
            (fun item => item == pipelineFinalizerName)) },
          [.deleteConfig nsName p.name]) ∧
        hasString (removeString p.finalizers
            (fun item => item == pipelineFinalizerName))
          pipelineFinalizerName = false) ∧
    (deleteSucceeded (env.deleteProjectPipeline nsName p.name) = false →
      deletionBranch env nsName p =
        (.earlyErr .deleteFinalizerFailed, [.deleteConfig nsName p.name]) ∧
      (syncHandler env key).result = some .deleteFinalizerFailed ∧
      (syncHandler env key).storeWrite = none) := by
  constructor
  · intro hd
    constructor
    · simp [deletionBranch, hfin, hd]
    · exact hasString_removeString_self p.finalizers pipelineFinalizerName
  · intro hd
    have hbr : deletionBranch env nsName p =
        (.earlyErr .deleteFinalizerFailed,
          [.deleteConfig nsName p.name]) := by
      simp [deletionBranch, hfin, hd]
    refine ⟨hbr, ?_, ?_⟩ <;>
      rw [syncHandler_resolved env key nsName nm n p hkey hns helig hp,
        hdel, hbr] <;>
      simp

/-- Witness for C1: on a resource marked deleted with the finalizer present,
a successful remote delete removes the tag, and a 500 remote delete retains
it, returns the error and writes nothing back. -/
theorem pipeline_finalizer_removed_iff_delete_success_witness :
    (deletionBranch envW1s "ns1" pW1 =
      (.proceed { pW1 with finalizers := ["other.finalizer"] },
        [.deleteConfig "ns1" "p1"]) ∧
      hasString (removeString pW1.finalizers
          (fun item => item == pipelineFinalizerName))
        pipelineFinalizerName = false) ∧
    (deletionBranch envW1f "ns1" pW1 =
      (.earlyErr .deleteFinalizerFailed, [.deleteConfig "ns1" "p1"]) ∧
      (syncHandler envW1f "ns1/p1").result = some .deleteFinalizerFailed ∧
      (syncHandler envW1f "ns1/p1").storeWrite = none) :=
  ⟨(pipeline_finalizer_removed_iff_delete_success envW1s "ns1/p1" "ns1" "p1"
      nsW1 pW1 rfl rfl rfl rfl rfl rfl).1 rfl,
    (pipeline_finalizer_removed_iff_delete_success envW1f "ns1/p1" "ns1" "p1"
      nsW1 pW1 rfl rfl rfl rfl rfl rfl).2 rfl⟩

/-- C3 counterexample: the remote read fails with an error that is NOT a
not-found (an unexpected error value), yet the handler calls create and
returns success, instead of returning a retryable error without calling
create as the claim states. -/
theorem pipeline_remote_read_failure_calls_create :
    envW3.getProjectPipelineConfig "ns3" "p3" = .error .otherErr ∧
    (syncHandler envW3 "ns3/p3").devopsCalls =
      [.getConfig "ns3" "p3", .createConfig "ns3" cW3] ∧
    (syncHandler envW3 "ns3/p3").result = none :=
  ⟨rfl, rfl, rfl⟩

/-- C3 amended: in the live branch without the fast path, the handler reads
the remote config and branches as: read success with a spec differing from
the local spec → update (a failed update is the returned error); read
success with an identical spec → no further remote call; read failure of ANY
kind — not-found or any other error, which the code does not distinguish —
→ create (a failed create is the returned error). -/
theorem remoteSync_branch_behavior (env : Env) (nsName pname : String)
    (copy : Pipeline) :
    (∀ jp, env.getProjectPipelineConfig nsName pname = .ok jp →
      specEq jp.spec copy.spec = true →
      remoteSync env nsName pname copy =
        (.proceed (annoSet copy pipelineSyncStatusAnnoKey statusSuccessful),
          [.getConfig nsName pname])) ∧
    (∀ jp q, env.getProjectPipelineConfig nsName pname = .ok jp →
      specEq jp.spec copy.spec = false →
      env.updateProjectPipeline nsName copy = .ok q →
      remoteSync env nsName pname copy =
        (.proceed (annoSet copy pipelineSyncStatusAnnoKey statusSuccessful),
          [.getConfig nsName pname, .updateConfig nsName copy])) ∧
    (∀ jp e, env.getProjectPipelineConfig nsName pname = .ok jp →
      specEq jp.spec copy.spec = false →
      env.updateProjectPipeline nsName copy = .error e →
      remoteSync env nsName pname copy =
        (.earlyErr .updateRemoteFailed,
          [.getConfig nsName pname, .updateConfig nsName copy])) ∧
    (∀ e q, env.getProjectPipelineConfig nsName pname = .error e →
      env.createProjectPipeline nsName copy = .ok q →
      remoteSync env nsName pname copy =
        (.proceed (annoSet copy pipelineSyncStatusAnnoKey statusSuccessful),
          [.getConfig nsName pname, .createConfig nsName copy])) ∧
    (∀ e f, env.getProjectPipelineConfig nsName pname = .error e →
      env.createProjectPipeline nsName copy = .error f →
      remoteSync env nsName pname copy =
        (.earlyErr .createRemoteFailed,
          [.getConfig nsName pname, .createConfig nsName copy])) := by
  refine ⟨?_, ?_, ?_, ?_, ?_⟩
  · intro jp hg hs
    unfold remoteSync
    rw [hg]
    simp [hs]
  · intro jp q hg hs hu
    unfold remoteSync
    rw [hg]
    simp [hs, hu]
  · intro jp e hg hs hu
    unfold remoteSync
    rw [hg]
    simp [hs, hu]
  · intro e q hg hc
    unfold remoteSync
    rw [hg]
    simp [hc]
  · intro e f hg hc
    unfold remoteSync
    rw [hg]
    simp [hc]

/-- Witness for the amended C3: a non-not-found read failure leads to
create, and a successful read with an identical spec leads to no further
call. -/
theorem remoteSync_branch_behavior_witness :
    remoteSync envW3 "ns3" "p3" cW3 =
      (.proceed (annoSet cW3 pipelineSyncStatusAnnoKey statusSuccessful),
        [.getConfig "ns3" "p3", .createConfig "ns3" cW3]) ∧
    remoteSync envW3b "ns3" "p3" cW3 =
      (.proceed (annoSet cW3 pipelineSyncStatusAnnoKey statusSuccessful),
        [.getConfig "ns3" "p3"]) :=
  ⟨(remoteSync_branch_behavior envW3 "ns3" "p3" cW3).2.2.2.1 .otherErr cW3
      rfl rfl,
    (remoteSync_branch_behavior envW3b "ns3" "p3" cW3).1 pW3 rfl rfl⟩

/-- C2 counterexample: a brand-new live eligible resource with no remote
config — the handler calls create and persists the resource, but the
persisted resource carries only `sync-status = successful`; the `spec-hash`
annotation is NOT set in that invocation, refuting "sets both annotations".
-/
theorem pipeline_create_path_misses_spec_hash :
    (syncHandler envW2 "ns2/p2").result = none ∧
    (syncHandler envW2 "ns2/p2").devopsCalls =
      [.getConfig "ns2" "p2", .createConfig "ns2" cW2] ∧
    (syncHandler envW2 "ns2/p2").storeWrite.map
        (fun q => (annoLookup q pipelineSyncStatusAnnoKey,
          annoLookup q pipelineSpecHash)) =
      some (some statusSuccessful, none) :=
  ⟨rfl, rfl, rfl⟩

/-- C2 amended: for a live, eligible resource whose sync-status annotation
is not already `successful` (in particular a brand-new resource) and whose
remote read fails, one invocation calls create and persists the resource
with `sync-status = successful`, but leaves the `spec-hash` annotation
exactly as it was (absent for a new resource); the hash is only written by
the fast-path-miss branch of a later invocation, once the status is already
`successful`. -/
theorem pipeline_create_sets_status_only (env : Env)
    (key nsName nm : String) (n : K8sNamespace) (p q r : Pipeline)
    (e : DevopsErr)
    (hkey : splitMetaNamespaceKey key = .ok (nsName, nm))
    (hns : env.namespaces nsName = .ok n)
    (helig : isDevOpsProjectAdminNamespace n = true)
    (hp : env.pipelines nsName nm = .ok p)
    (hlive : p.deletionTimestampIsZero = true)
    (hnosucc : annoLookup p pipelineSyncStatusAnnoKey ≠
      some statusSuccessful)
    (hget : env.getProjectPipelineConfig nsName p.name = .error e)
    (hcreate : env.createProjectPipeline nsName
      (ensureFinalizer (ensureAnnotations p)) = .ok q)
    (hwrite : env.updatePipeline nsName
        (annoSet (ensureFinalizer (ensureAnnotations p))
          pipelineSyncStatusAnnoKey statusSuccessful) = .ok r) :
    syncHandler env key =
      { result := none,
        devopsCalls := [.getConfig nsName p.name,
          .createConfig nsName (ensureFinalizer (ensureAnnotations p))],
        storeWrite := some (annoSet (ensureFinalizer (ensureAnnotations p))
          pipelineSyncStatusAnnoKey statusSuccessful) } ∧
    annoLookup (annoSet (ensureFinalizer (ensureAnnotations p))
        pipelineSyncStatusAnnoKey statusSuccessful)
      pipelineSyncStatusAnnoKey = some statusSuccessful ∧
    annoLookup (annoSet (ensureFinalizer (ensureAnnotations p))
        pipelineSyncStatusAnnoKey statusSuccessful)
      pipelineSpecHash = annoLookup p pipelineSpecHash := by
  have hkne : pipelineSyncStatusAnnoKey ≠ pipelineSpecHash := by decide
  have hfp : fastPathStep (ensureAnnotations p) =
      some (ensureAnnotations p) :=
    fastPathStep_skip_of_not_successful
      (by rw [annoLookup_ensureAnnotations]; exact hnosucc)
  have hlb : liveBranch env nsName p =
      (.proceed (annoSet (ensureFinalizer (ensureAnnotations p))
          pipelineSyncStatusAnnoKey statusSuccessful),
        [.getConfig nsName p.name,
          .createConfig nsName (ensureFinalizer (ensureAnnotations p))]) := by
    unfold liveBranch
    dsimp only
    rw [hfp]
    dsimp only
    unfold remoteSync
    rw [hget]
    dsimp only
    rw [hcreate]
  have hdeq : pipelineDeepEq p
      (annoSet (ensureFinalizer (ensureAnnotations p))
        pipelineSyncStatusAnnoKey statusSuccessful) = false := by
    cases hq : pipelineDeepEq p
        (annoSet (ensureFinalizer (ensureAnnotations p))
          pipelineSyncStatusAnnoKey statusSuccessful) with
    | false => rfl
    | true =>
      have hl := pipelineDeepEq_annoLookup_eq hq pipelineSyncStatusAnnoKey
      rw [annoLookup_annoSet_self] at hl
      exact absurd hl hnosucc
  refine ⟨?_, annoLookup_annoSet_self _ _ _, ?_⟩
  · rw [syncHandler_resolved env key nsName nm n p hkey hns helig hp, hlive,
      if_pos rfl, hlb]
    dsimp only
    unfold persistStep
    rw [hdeq]
    simp only [Bool.not_false, if_true, ite_true]
    rw [hwrite]
  · rw [annoLookup_annoSet_ne _ _ hkne,
      annoLookup_eq_of_annotations
        (ensureFinalizer_fields (ensureAnnotations p)).2.2.2,
      annoLookup_ensureAnnotations]

/-- Witness for the amended C2 at the concrete new resource `pW2`. -/
theorem pipeline_create_sets_status_only_witness :
    syncHandler envW2 "ns2/p2" =
      { result := none,
        devopsCalls := [.getConfig "ns2" "p2",
          .createConfig "ns2" (ensureFinalizer (ensureAnnotations pW2))],
        storeWrite := some (annoSet (ensureFinalizer (ensureAnnotations pW2))
          pipelineSyncStatusAnnoKey statusSuccessful) } ∧
    annoLookup (annoSet (ensureFinalizer (ensureAnnotations pW2))
        pipelineSyncStatusAnnoKey statusSuccessful)
      pipelineSpecHash = annoLookup pW2 pipelineSpecHash :=
  ⟨(pipeline_create_sets_status_only envW2 "ns2/p2" "ns2" "p2" nsW2 pW2
      (ensureFinalizer (ensureAnnotations pW2))
      (annoSet (ensureFinalizer (ensureAnnotations pW2))
        pipelineSyncStatusAnnoKey statusSuccessful)
      (.serviceError 404) rfl rfl rfl rfl rfl (by decide) rfl rfl rfl).1,
    (pipeline_create_sets_status_only envW2 "ns2/p2" "ns2" "p2" nsW2 pW2
      (ensureFinalizer (ensureAnnotations pW2))
      (annoSet (ensureFinalizer (ensureAnnotations pW2))
        pipelineSyncStatusAnnoKey statusSuccessful)
      (.serviceError 404) rfl rfl rfl rfl rfl (by decide) rfl rfl rfl).2.2⟩

/-- C4 counterexample: a live resource satisfying the idempotency fast path
but missing the controller finalizer — the handler returns nil immediately
with no store write, so the finalizer is NOT added and nothing is written
back, refuting "even when the fast path applies it still proceeds to the
persistence check". -/
theorem pipeline_fastpath_skips_finalizer_add :
    annoLookup pW4 pipelineSyncStatusAnnoKey = some statusSuccessful ∧
    annoLookup pW4 pipelineSpecHash = some (computeHash pW4.spec) ∧
    hasString pW4.finalizers pipelineFinalizerName = false ∧
    syncHandler envW4 "ns4/p4" =
      { result := none, devopsCalls := [], storeWrite := none } :=
  ⟨rfl, rfl, rfl, rfl⟩

/-- C4 amended: in the live branch the handler ensures the finalizer tag only
when the idempotency fast path does not apply: whenever the live branch falls
through to the persistence step its copy carries the finalizer tag, but when
the fast path applies (`sync-status = successful` and matching spec hash) the
handler returns success immediately — before the finalizer-ensure and the
persistence check — so a resource missing the finalizer is left unchanged in
that invocation. -/
theorem pipeline_fastpath_early_return_finalizer_otherwise (env : Env)
    (key nsName nm : String) (n : K8sNamespace) (p : Pipeline)
    (hkey : splitMetaNamespaceKey key = .ok (nsName, nm))
    (hns : env.namespaces nsName = .ok n)
    (helig : isDevOpsProjectAdminNamespace n = true)
    (hp : env.pipelines nsName nm = .ok p)
    (hlive : p.deletionTimestampIsZero = true) :
    (annoLookup p pipelineSyncStatusAnnoKey = some statusSuccessful →
      annoLookup p pipelineSpecHash = some (computeHash p.spec) →
      syncHandler env key =
        { result := none, devopsCalls := [], storeWrite := none }) ∧
    (∀ c calls, liveBranch env nsName p = (.proceed c, calls) →
      hasString c.finalizers pipelineFinalizerName = true) := by
  constructor
  · intro hstatus hhash
    exact fastpath_nil_result env key nsName nm n p hkey hns helig hp hlive
      hstatus hhash
  · intro c calls h
    exact (liveBranch_proceed_fields h).2.2.2

/-- Witness for the amended C4: the fast-pathed `pW4` is returned untouched,
and the fallthrough copy for the new resource `pW7` carries the finalizer. -/
theorem pipeline_fastpath_early_return_finalizer_otherwise_witness :
    syncHandler envW4 "ns4/p4" =
      { result := none, devopsCalls := [], storeWrite := none } ∧
    hasString cW7.finalizers pipelineFinalizerName = true :=
  ⟨(pipeline_fastpath_early_return_finalizer_otherwise envW4 "ns4/p4" "ns4"
      "p4" nsW4 pW4 rfl rfl rfl rfl rfl).1 rfl rfl,
    (pipeline_fastpath_early_return_finalizer_otherwise envW7 "ns7/p7" "ns7"
      "p7" nsW7 pW7 rfl rfl rfl rfl rfl).2 cW7
      [.getConfig "ns7" "p7", .createConfig "ns7"
        { name := "p7", spec := .str "s7", deletionTimestampIsZero := true,
          finalizers := [pipelineFinalizerName], annotations := some [] }]
      rfl⟩

/-- C7: a store write happens at the persistence step iff the mutated copy
differs (`reflect.DeepEqual`) from the original, and any pipeline the handler
writes back differs from the fetched original only outside its spec, name
and deletion marker (the handler touches annotations and finalizers only). -/
theorem syncHandler_persist_iff_changed_spec_frame (env : Env)
    (key nsName nm : String) (n : K8sNamespace) (p : Pipeline)
    (hkey : splitMetaNamespaceKey key = .ok (nsName, nm))
    (hns : env.namespaces nsName = .ok n)
    (helig : isDevOpsProjectAdminNamespace n = true)
    (hp : env.pipelines nsName nm = .ok p) :
    (∀ orig c, (persistStep env nsName orig c).2 = none ↔
      pipelineDeepEq orig c = true) ∧
    (∀ c, (syncHandler env key).storeWrite = some c →
      pipelineDeepEq p c = false ∧ c.spec = p.spec ∧ c.name = p.name ∧
        c.deletionTimestampIsZero = p.deletionTimestampIsZero) := by
  constructor
  · intro orig c
    unfold persistStep
    cases hq : pipelineDeepEq orig c with
    | true => simp
    | false =>
      cases hu : env.updatePipeline nsName c with
      | ok r => simp [hu]
      | error f => simp [hu]
  · intro c hc
    rw [syncHandler_resolved env key nsName nm n p hkey hns helig hp] at hc
    cases hl : p.deletionTimestampIsZero with
    | true =>
      rw [hl, if_pos rfl] at hc
      rcases hbr : liveBranch env nsName p with ⟨out, calls⟩
      rw [hbr] at hc
      cases out with
      | earlyNil => simp at hc
      | earlyErr f => simp at hc
      | proceed copy =>
        dsimp only at hc
        unfold persistStep at hc
        cases hq : pipelineDeepEq p copy with
        | true => rw [hq] at hc; simp at hc
        | false =>
          rw [hq] at hc
          simp only [Bool.not_false, if_true, ite_true] at hc
          have hcopy : copy = c := by
            cases hu : env.updatePipeline nsName copy with
            | ok r => rw [hu] at hc; simpa using hc
            | error f => rw [hu] at hc; simpa using hc
          subst hcopy
          have hf := liveBranch_proceed_fields hbr
          exact ⟨hq, hf.1, hf.2.1, hf.2.2.1.trans hl⟩
    | false =>
      rw [hl, if_neg (by simp)] at hc
      rcases hbr : deletionBranch env nsName p with ⟨out, calls⟩
      rw [hbr] at hc
      cases out with
      | earlyNil => simp at hc
      | earlyErr f => simp at hc
      | proceed copy =>
        dsimp only at hc
        unfold persistStep at hc
        cases hq : pipelineDeepEq p copy with
        | true => rw [hq] at hc; simp at hc
        | false =>
          rw [hq] at hc
          simp only [Bool.not_false, if_true, ite_true] at hc
          have hcopy : copy = c := by
            cases hu : env.updatePipeline nsName copy with
            | ok r => rw [hu] at hc; simpa using hc
            | error f => rw [hu] at hc; simpa using hc
          subst hcopy
          have hf := deletionBranch_proceed_fields hbr
          exact ⟨hq, hf.1, hf.2.1, hf.2.2.1.trans hl⟩

/-- Witness for C7: the no-change copy of `pW7` is not written (iff side),
and the actually written `cW7` differs from the original yet keeps its spec,
name and deletion marker. -/
theorem syncHandler_persist_iff_changed_spec_frame_witness :
    ((persistStep envW7 "ns7" pW7 pW7).2 = none ↔
      pipelineDeepEq pW7 pW7 = true) ∧
    (pipelineDeepEq pW7 cW7 = false ∧ cW7.spec = pW7.spec ∧
      cW7.name = pW7.name ∧
      cW7.deletionTimestampIsZero = pW7.deletionTimestampIsZero) :=
  ⟨(syncHandler_persist_iff_changed_spec_frame envW7 "ns7/p7" "ns7" "p7"
      nsW7 pW7 rfl rfl rfl rfl).1 pW7 pW7,
    (syncHandler_persist_iff_changed_spec_frame envW7 "ns7/p7" "ns7" "p7"
      nsW7 pW7 rfl rfl rfl rfl).2 cW7 rfl⟩

end PipelineController
